import Mathlib

/-!
# Verification of the S3 circuit breaker (weed/s3api/s3api_circuit_breaker.go)

A shallow embedding of the admission-control gate ("circuit breaker") of the
seaweedfs S3 API layer.  The Go source keeps three pieces of state on the
`CircuitBreaker` struct: an `Enabled` flag, a map of live counters
(`map[string]*atomic.Int64`), and a map of thresholds
(`map[string]int64`, called `limitations`).  We model both maps as
association lists from `String` to `Int` (Go `int64` arithmetic is modelled
on unbounded `Int`; none of the verified properties involves wrap-around),
with value semantics: reading an absent counter yields `0`, exactly the
value a freshly created `atomic.NewInt64(0)` holds.  Go's per-key atomic
counter pointers are identified with the map entry at that key: counters
are created once and never removed, so key-based access is faithful.

Rollback closures (`func() { counter.Sub(inc) }`) are modelled as explicit
`Rollback` records naming the key and the amount to subtract.

The only concurrency-relevant freedom in the code is the window between a
check's `counter.Add(inc)` and its re-reading `counter.Load()`: other
in-flight requests may move the shared counter in between.  The embedding
exposes this as an explicit `delta` argument of `loadCounterAndCompare`,
the net amount concurrently added by other actors inside that window; a
single-threaded execution, and all sequential compositions below, use
`delta = 0`.
-/

/-- The three s3err error codes the circuit breaker touches.  `s3err` is an
external collaborator of this file's source; only these three values reach
the gate. -/
inductive ErrorCode where
  | ErrNone
  | ErrTooManyRequest
  | ErrRequestBytesExceed
deriving DecidableEq, Repr

/-- Modelled from the spec: `s3_config.Concat` is not part of the given
source.  The spec describes a Limit Key as a composite of scope, action and
metric kind joined into one string key; we join the components with the
separator `:` (the concrete separator value is immaterial to every claim
below). -/
def Concat (elements : List String) : String :=
  String.intercalate ":" elements

/-- Modelled from the spec: the metric kind for simultaneous request count
(`s3_config.LimitTypeCount`, a string constant outside the given source). -/
def LimitTypeCount : String := "Count"

/-- Modelled from the spec: the metric kind for in-flight content bytes
(`s3_config.LimitTypeBytes`, a string constant outside the given source). -/
def LimitTypeBytes : String := "Bytes"

/-- Association-list map lookup: first binding of the key wins. -/
def mapGet (m : List (String × Int)) (k : String) : Option Int :=
  match m with
  | [] => none
  | (k', v) :: rest => if k = k' then some v else mapGet rest k

/-- Association-list map update: the new binding shadows older ones, which
is the functional image of a Go map assignment. -/
def mapInsert (m : List (String × Int)) (k : String) (v : Int) :
    List (String × Int) :=
  (k, v) :: m

/-- The value a Go `*atomic.Int64` counter holds at key `k`: the stored
value, or `0` for a counter that was never created. -/
def getV (m : List (String × Int)) (k : String) : Int :=
  (mapGet m k).getD 0

/-- `S3CircuitBreakerOptions` of the configuration wire format: an enabled
flag plus an action-name → threshold map (modelled as an association list,
iterated in list order because Go map iteration order is unspecified). -/
structure S3CircuitBreakerOptions where
  enabled : Bool
  actions : List (String × Int)
deriving DecidableEq, Repr

/-- `S3CircuitBreakerConfig` of the configuration wire format: an optional
global section (a nil pointer in Go is `none`) and a bucket-name → options
map. -/
structure S3CircuitBreakerConfig where
  global : Option S3CircuitBreakerOptions
  buckets : List (String × S3CircuitBreakerOptions)
deriving DecidableEq, Repr

/-- The `CircuitBreaker` struct: enabled flag, live counters, thresholds. -/
structure CircuitBreaker where
  Enabled : Bool
  counters : List (String × Int)
  limitations : List (String × Int)
deriving DecidableEq, Repr

/-- A recorded release action: `func() { counter.Sub(inc) }`, i.e. subtract
`amount` from the counter at `key`. -/
structure Rollback where
  key : String
  amount : Int
deriving DecidableEq, Repr

/-- Run a collected list of release actions, in order, over the counter
map. -/
def applyRollbacks (m : List (String × Int)) (rbs : List Rollback) :
    List (String × Int) :=
  rbs.foldl (fun m2 rb => mapInsert m2 rb.key (getV m2 rb.key - rb.amount)) m

/-- The state the `NewCircuitBreaker` constructor builds before it attempts
the initial configuration fetch (an external I/O collaborator): disabled,
no counters, no limitations. -/
def NewCircuitBreaker : CircuitBreaker :=
  { Enabled := false, counters := [], limitations := [] }

/-- `loadCircuitBreakerConfig`: rebuild the `Enabled` flag and the
`limitations` table from a structured configuration.  Mirrors the source:
the global section contributes its action entries under their raw keys when
it is enabled and non-empty; every enabled bucket contributes its entries
under `Concat(bucket, action)`; the `counters` field is not touched. -/
def loadCircuitBreakerConfig (cb : CircuitBreaker)
    (cfg : S3CircuitBreakerConfig) : CircuitBreaker :=
  let globalPart : Bool × List (String × Int) :=
    match cfg.global with
    | some globalOptions =>
      if globalOptions.enabled = true ∧ 0 < globalOptions.actions.length then
        (globalOptions.enabled,
         globalOptions.actions.foldl (fun m p => mapInsert m p.1 p.2) [])
      else (false, [])
    | none => (false, [])
  let lims := cfg.buckets.foldl
    (fun m bp =>
      if bp.2.enabled = true then
        bp.2.actions.foldl (fun m2 p => mapInsert m2 (Concat [bp.1, p.1]) p.2) m
      else m)
    globalPart.2
  { cb with Enabled := globalPart.1, limitations := lims }

/-- `LoadS3ApiConfigurationFromBytes`: decode raw bytes (the decoder
`filer.ParseS3ConfigurationFromBytes` is an external collaborator, passed
here as a function) and rebuild the tables on success.  Returns the
breaker state after the call together with the error message, if any. -/
def LoadS3ApiConfigurationFromBytes
    (parse : List UInt8 → Except String S3CircuitBreakerConfig)
    (cb : CircuitBreaker) (content : List UInt8) :
    CircuitBreaker × Option String :=
  match parse content with
  | Except.error e => (cb, some ("unmarshal error: " ++ e))
  | Except.ok cfg => (loadCircuitBreakerConfig cb cfg, none)

/-- `loadCounterAndCompare`: one admission check for the key
`Concat(bucket, action, limitType)` with increment `inc`.  Returns the new
state, the recorded release action (if an increment was applied) and the
error code.  `delta` is the net amount other in-flight requests add to the
shared counter between this check's `counter.Add(inc)` and its re-reading
`counter.Load()`; it is `0` in a single-threaded execution. -/
def loadCounterAndCompare (cb : CircuitBreaker)
    (bucket action limitType : String) (inc : Int) (errCode : ErrorCode)
    (delta : Int) : CircuitBreaker × Option Rollback × ErrorCode :=
  let key := Concat [bucket, action, limitType]
  match mapGet cb.limitations key with
  | none => (cb, none, ErrorCode.ErrNone)
  | some max =>
    let counters :=
      match mapGet cb.counters key with
      | some _ => cb.counters
      | none => mapInsert cb.counters key 0
    let current := getV counters key
    if current + inc > max then
      ({ cb with counters := counters }, none, errCode)
    else
      let counters2 := mapInsert counters key (current + inc + delta)
      let current2 := current + inc + delta
      if current2 > max then
        ({ cb with counters := counters2 }, some ⟨key, inc⟩, errCode)
      else
        ({ cb with counters := counters2 }, some ⟨key, inc⟩, ErrorCode.ErrNone)

/-- `limit`: the four-check admission gate, in source order, collecting the
release actions of every check that applied an increment and
short-circuiting on the first non-`ErrNone` code.  `contentLength` is the
request's declared `r.ContentLength`. -/
def CircuitBreaker.limit (cb : CircuitBreaker) (bucket action : String)
    (contentLength : Int) : CircuitBreaker × List Rollback × ErrorCode :=
  let r1 := loadCounterAndCompare cb bucket action LimitTypeCount 1
    ErrorCode.ErrTooManyRequest 0
  let rollback1 := ([] : List Rollback) ++ r1.2.1.toList
  if r1.2.2 ≠ ErrorCode.ErrNone then (r1.1, rollback1, r1.2.2)
  else
    let r2 := loadCounterAndCompare r1.1 bucket action LimitTypeBytes
      contentLength ErrorCode.ErrRequestBytesExceed 0
    let rollback2 := rollback1 ++ r2.2.1.toList
    if r2.2.2 ≠ ErrorCode.ErrNone then (r2.1, rollback2, r2.2.2)
    else
      let r3 := loadCounterAndCompare r2.1 "" action LimitTypeCount 1
        ErrorCode.ErrTooManyRequest 0
      let rollback3 := rollback2 ++ r3.2.1.toList
      if r3.2.2 ≠ ErrorCode.ErrNone then (r3.1, rollback3, r3.2.2)
      else
        let r4 := loadCounterAndCompare r3.1 "" action LimitTypeBytes
          contentLength ErrorCode.ErrRequestBytesExceed 0
        let rollback4 := rollback3 ++ r4.2.1.toList
        (r4.1, rollback4, r4.2.2)

/-- The handler `Limit` wraps around `f`: when disabled, call the handler
unconditionally; otherwise run the gate, run the handler exactly when the
code is `ErrNone`, and run every collected release action on exit (the
`defer`).  The returned triple is the final breaker state, whether the
wrapped handler ran, and the error code written (if any). -/
def CircuitBreaker.Limit (cb : CircuitBreaker) (bucket action : String)
    (contentLength : Int) : CircuitBreaker × Bool × ErrorCode :=
  if !cb.Enabled then (cb, true, ErrorCode.ErrNone)
  else
    let r := cb.limit bucket action contentLength
    let final := { r.1 with counters := applyRollbacks r.1.counters r.2.1 }
    if r.2.2 = ErrorCode.ErrNone then (final, true, ErrorCode.ErrNone)
    else (final, false, r.2.2)

/-- A fully sequential run of a list of requests
`(bucket, action, contentLength)` through `Limit`: each request completes
(handler and deferred releases) before the next begins. -/
def LimitSeq (cb : CircuitBreaker) (reqs : List (String × String × Int)) :
    CircuitBreaker :=
  reqs.foldl (fun s r => (CircuitBreaker.Limit s r.1 r.2.1 r.2.2).1) cb

/-- Spec-side description of one admission check: the key components, the
increment and the rejection code. -/
structure CheckSpec where
  bucket : String
  action : String
  limitType : String
  inc : Int
  errCode : ErrorCode
deriving DecidableEq, Repr

/-- Spec-side description of the gate's check sequence, following the spec
text: bucket count (inc 1), bucket bytes (inc = declared content length),
global count (inc 1), global bytes (inc = declared content length), with
the count rejection code on count checks and the byte-volume rejection
code on bytes checks. -/
def gateChecks (bucket action : String) (contentLength : Int) :
    List CheckSpec :=
  [⟨bucket, action, LimitTypeCount, 1, ErrorCode.ErrTooManyRequest⟩,
   ⟨bucket, action, LimitTypeBytes, contentLength,
     ErrorCode.ErrRequestBytesExceed⟩,
   ⟨"", action, LimitTypeCount, 1, ErrorCode.ErrTooManyRequest⟩,
   ⟨"", action, LimitTypeBytes, contentLength,
     ErrorCode.ErrRequestBytesExceed⟩]

/-- Spec-side runner: evaluate a list of checks in order, short-circuiting
on the first rejection and collecting the release actions of every check
that applied an increment. -/
def runChecks (cb : CircuitBreaker) :
    List CheckSpec → CircuitBreaker × List Rollback × ErrorCode
  | [] => (cb, [], ErrorCode.ErrNone)
  | c :: rest =>
    let r := loadCounterAndCompare cb c.bucket c.action c.limitType c.inc
      c.errCode 0
    if r.2.2 = ErrorCode.ErrNone then
      let r' := runChecks r.1 rest
      (r'.1, r.2.1.toList ++ r'.2.1, r'.2.2)
    else (r.1, r.2.1.toList, r.2.2)

/-- Sum of the amounts of the release actions recorded against key `k`. -/
def sumAt : List Rollback → String → Int
  | [], _ => 0
  | rb :: rest, k => (if rb.key = k then rb.amount else 0) + sumAt rest k

/-! ## Basic map lemmas -/

theorem mapGet_mapInsert (m : List (String × Int)) (k : String) (v : Int)
    (k' : String) :
    mapGet (mapInsert m k v) k' = if k' = k then some v else mapGet m k' := by
  simp [mapGet, mapInsert]

theorem getV_mapInsert (m : List (String × Int)) (k : String) (v : Int)
    (k' : String) :
    getV (mapInsert m k v) k' = if k' = k then v else getV m k' := by
  simp only [getV, mapGet_mapInsert]
  split <;> rfl

/-! ## C7: reload replaces the tables but leaves the counter store alone -/

/-- C7: a successful configuration reload leaves the counter store entirely
unchanged, and the new `Enabled` flag and limit table are functions of the
configuration alone (they are replaced wholesale, independent of the prior
tables). -/
theorem reload_preserves_counters :
    ∀ (cb cb' : CircuitBreaker) (cfg : S3CircuitBreakerConfig),
      (loadCircuitBreakerConfig cb cfg).counters = cb.counters
      ∧ (loadCircuitBreakerConfig cb cfg).Enabled
          = (loadCircuitBreakerConfig cb' cfg).Enabled
      ∧ (loadCircuitBreakerConfig cb cfg).limitations
          = (loadCircuitBreakerConfig cb' cfg).limitations := by
  intro cb cb' cfg
  refine ⟨rfl, rfl, rfl⟩

/-! ## C9: the enabled flag after a load -/

/-- C9: after a successful load the gate is enabled exactly when the
configuration's global section is present, its enabled flag is set, and its
action map is non-empty. -/
theorem enabled_iff_global_nonempty :
    ∀ (cb : CircuitBreaker) (cfg : S3CircuitBreakerConfig),
      (loadCircuitBreakerConfig cb cfg).Enabled = true ↔
        ∃ g, cfg.global = some g ∧ g.enabled = true ∧ 0 < g.actions.length := by
  intro cb cfg
  cases hg : cfg.global with
  | none => simp [loadCircuitBreakerConfig, hg]
  | some g =>
    by_cases h : g.enabled = true ∧ 0 < g.actions.length
    · simp [loadCircuitBreakerConfig, hg, h, h.1, h.2]
    · simp only [loadCircuitBreakerConfig, hg, if_neg h]
      simp only [Option.some.injEq]
      constructor
      · intro hfalse
        exact absurd hfalse (by simp)
      · rintro ⟨g', hg', he, hn⟩
        exact absurd ⟨hg' ▸ he, hg' ▸ hn⟩ h

/-! ## C2: a disabled gate is a no-op wrapper -/

/-- C2: when the enabled flag is false the wrapped handler runs
unconditionally, no request is rejected, and the breaker state (counters
included) is untouched, whatever thresholds are registered. -/
theorem disabled_gate_bypasses :
    ∀ (cb : CircuitBreaker) (bucket action : String) (contentLength : Int),
      cb.Enabled = false →
      CircuitBreaker.Limit cb bucket action contentLength
        = (cb, true, ErrorCode.ErrNone) := by
  intro cb b a l h
  simp [CircuitBreaker.Limit, h]

/-- A state with the gate disabled but a per-bucket threshold registered
(bucket `b`, action `Read`, both metrics) and a live counter. -/
def cbDisabledW : CircuitBreaker :=
  { Enabled := false,
    counters := [(Concat ["b", "Read", LimitTypeCount], 7)],
    limitations := [(Concat ["b", "Read", LimitTypeCount], 1),
                    (Concat ["b", "Read", LimitTypeBytes], 0)] }

theorem disabled_gate_bypasses_witness :
    cbDisabledW.Enabled = false
    ∧ CircuitBreaker.Limit cbDisabledW "b" "Read" 100
        = (cbDisabledW, true, ErrorCode.ErrNone) :=
  ⟨by decide, disabled_gate_bypasses cbDisabledW "b" "Read" 100 (by decide)⟩

/-! ## C6: a failed decode leaves the breaker untouched -/

/-- C6: when decoding the raw bytes fails, the load surfaces a descriptive
error and leaves both the enabled flag and the limit table exactly as they
were; started from the initial state, the breaker stays fully disabled. -/
theorem load_error_keeps_state :
    ∀ (parse : List UInt8 → Except String S3CircuitBreakerConfig)
      (content : List UInt8) (cb : CircuitBreaker) (e : String),
      parse content = Except.error e →
      LoadS3ApiConfigurationFromBytes parse cb content
        = (cb, some ("unmarshal error: " ++ e))
      ∧ (LoadS3ApiConfigurationFromBytes parse cb content).1.Enabled
          = cb.Enabled
      ∧ (LoadS3ApiConfigurationFromBytes parse cb content).1.limitations
          = cb.limitations
      ∧ (LoadS3ApiConfigurationFromBytes parse NewCircuitBreaker content).1
          = NewCircuitBreaker := by
  intro parse content cb e h
  simp [LoadS3ApiConfigurationFromBytes, h]

/-- A decoder that fails on every input. -/
def parseFailW : List UInt8 → Except String S3CircuitBreakerConfig :=
  fun _ => Except.error "bad"

theorem load_error_keeps_state_witness :
    parseFailW [] = Except.error "bad"
    ∧ (LoadS3ApiConfigurationFromBytes parseFailW cbDisabledW []
        = (cbDisabledW, some ("unmarshal error: " ++ "bad"))
      ∧ (LoadS3ApiConfigurationFromBytes parseFailW cbDisabledW []).1.Enabled
          = cbDisabledW.Enabled
      ∧ (LoadS3ApiConfigurationFromBytes parseFailW cbDisabledW []).1.limitations
          = cbDisabledW.limitations
      ∧ (LoadS3ApiConfigurationFromBytes parseFailW NewCircuitBreaker []).1
          = NewCircuitBreaker) :=
  ⟨rfl, load_error_keeps_state parseFailW [] cbDisabledW "bad" rfl⟩

/-! ## C1: the global registration key never matches the gate's lookup key -/

/-- A configuration whose global section is enabled with one action entry,
under the key the repository's own configuration writer produces
(`Concat(action, limitType)` = `"Read:Count"`). -/
def cfgGlobalReadCount : S3CircuitBreakerConfig :=
  { global := some { enabled := true, actions := [("Read:Count", 5)] },
    buckets := [] }

/-- C1 fails on the code: loading an enabled global configuration registers
the threshold under the raw configuration key (`"Read:Count"`), while the
gate's global count check looks up `Concat("", action, limitType)`
(`":Read:Count"`).  The looked-up key is absent, so the global count check
is trivially passed: it touches no counter, records no release action and
returns no error. -/
theorem global_limit_key_mismatch :
    (loadCircuitBreakerConfig NewCircuitBreaker cfgGlobalReadCount).Enabled
      = true
    ∧ mapGet (loadCircuitBreakerConfig NewCircuitBreaker
        cfgGlobalReadCount).limitations "Read:Count" = some 5
    ∧ Concat ["", "Read", LimitTypeCount] = ":Read:Count"
    ∧ mapGet (loadCircuitBreakerConfig NewCircuitBreaker
        cfgGlobalReadCount).limitations (Concat ["", "Read", LimitTypeCount])
      = none
    ∧ loadCounterAndCompare
        (loadCircuitBreakerConfig NewCircuitBreaker cfgGlobalReadCount)
        "" "Read" LimitTypeCount 1 ErrorCode.ErrTooManyRequest 0
      = (loadCircuitBreakerConfig NewCircuitBreaker cfgGlobalReadCount,
         none, ErrorCode.ErrNone) := by
  refine ⟨rfl, rfl, rfl, rfl, rfl⟩

/-! ## C5: the gate is exactly the four spec checks, in order -/

theorem limit_eq_runChecks (cb : CircuitBreaker) (b a : String) (l : Int) :
    cb.limit b a l = runChecks cb (gateChecks b a l) := by
  simp only [CircuitBreaker.limit, gateChecks, runChecks]
  by_cases h1 : (loadCounterAndCompare cb b a LimitTypeCount 1
      ErrorCode.ErrTooManyRequest 0).2.2 = ErrorCode.ErrNone
  case neg => simp [h1]
  simp only [h1, ne_eq, not_true_eq_false, if_false, if_true]
  by_cases h2 : (loadCounterAndCompare
      (loadCounterAndCompare cb b a LimitTypeCount 1
        ErrorCode.ErrTooManyRequest 0).1 b a LimitTypeBytes l
      ErrorCode.ErrRequestBytesExceed 0).2.2 = ErrorCode.ErrNone
  case neg => simp [h2]
  simp only [h2, ne_eq, not_true_eq_false, if_false, if_true]
  by_cases h3 : (loadCounterAndCompare
      (loadCounterAndCompare
        (loadCounterAndCompare cb b a LimitTypeCount 1
          ErrorCode.ErrTooManyRequest 0).1 b a LimitTypeBytes l
        ErrorCode.ErrRequestBytesExceed 0).1 "" a LimitTypeCount 1
      ErrorCode.ErrTooManyRequest 0).2.2 = ErrorCode.ErrNone
  case neg => simp [h3]
  simp only [h3, ne_eq, not_true_eq_false, if_false, if_true]
  by_cases h4 : (loadCounterAndCompare
      (loadCounterAndCompare
        (loadCounterAndCompare
          (loadCounterAndCompare cb b a LimitTypeCount 1
            ErrorCode.ErrTooManyRequest 0).1 b a LimitTypeBytes l
          ErrorCode.ErrRequestBytesExceed 0).1 "" a LimitTypeCount 1
        ErrorCode.ErrTooManyRequest 0).1 "" a LimitTypeBytes l
      ErrorCode.ErrRequestBytesExceed 0).2.2 = ErrorCode.ErrNone
  · simp [h4]
  · simp [h4]

theorem loadCounterAndCompare_spec (cb : CircuitBreaker) (b a t : String)
    (inc delta max : Int) (ec : ErrorCode)
    (h : mapGet cb.limitations (Concat [b, a, t]) = some max) :
    (max < getV cb.counters (Concat [b, a, t]) + inc →
      (loadCounterAndCompare cb b a t inc ec delta).2.1 = none
      ∧ (loadCounterAndCompare cb b a t inc ec delta).2.2 = ec
      ∧ (∀ k, getV (loadCounterAndCompare cb b a t inc ec delta).1.counters k
          = getV cb.counters k)
      ∧ (loadCounterAndCompare cb b a t inc ec delta).1.limitations
          = cb.limitations)
    ∧ (getV cb.counters (Concat [b, a, t]) + inc ≤ max →
      (loadCounterAndCompare cb b a t inc ec delta).2.1
          = some ⟨Concat [b, a, t], inc⟩
      ∧ (∀ k, getV (loadCounterAndCompare cb b a t inc ec delta).1.counters k
          = if k = Concat [b, a, t]
            then getV cb.counters (Concat [b, a, t]) + inc + delta
            else getV cb.counters k)
      ∧ (max < getV cb.counters (Concat [b, a, t]) + inc + delta →
          (loadCounterAndCompare cb b a t inc ec delta).2.2 = ec)
      ∧ (getV cb.counters (Concat [b, a, t]) + inc + delta ≤ max →
          (loadCounterAndCompare cb b a t inc ec delta).2.2
            = ErrorCode.ErrNone)
      ∧ (loadCounterAndCompare cb b a t inc ec delta).1.limitations
          = cb.limitations) := by
  cases hc : mapGet cb.counters (Concat [b, a, t]) with
  | none =>
    have h0 : getV cb.counters (Concat [b, a, t]) = 0 := by
      simp [getV, hc]
    have hg : getV (mapInsert cb.counters (Concat [b, a, t]) 0)
        (Concat [b, a, t]) = 0 := by
      simp [getV_mapInsert]
    simp only [loadCounterAndCompare, h, hc, hg, h0]
    constructor
    · intro hlt
      rw [if_pos (by omega)]
      refine ⟨rfl, rfl, ?_, rfl⟩
      intro k
      rw [getV_mapInsert]
      split
      · rename_i hk
        subst hk
        omega
      · rfl
    · intro hle
      rw [if_neg (by omega)]
      refine ⟨?_, ?_, ?_, ?_, ?_⟩
      · split <;> rfl
      · intro k
        by_cases hk : k = Concat [b, a, t]
        · subst hk
          split <;> simp [getV_mapInsert]
        · split <;>
            simp [getV_mapInsert, hk, if_neg hk]
      · intro hlt2
        rw [if_pos (by omega)]
      · intro hle2
        rw [if_neg (by omega)]
      · split <;> rfl
  | some c =>
    have h0 : getV cb.counters (Concat [b, a, t]) = c := by
      simp [getV, hc]
    simp only [loadCounterAndCompare, h, hc, h0]
    constructor
    · intro hlt
      rw [if_pos (by omega)]
      exact ⟨rfl, rfl, fun k => rfl, rfl⟩
    · intro hle
      rw [if_neg (by omega)]
      refine ⟨?_, ?_, ?_, ?_, ?_⟩
      · split <;> rfl
      · intro k
        by_cases hk : k = Concat [b, a, t]
        · subst hk
          split <;> simp [getV_mapInsert, h0]
        · split <;>
            simp [getV_mapInsert, hk, if_neg hk]
      · intro hlt2
        rw [if_pos (by omega)]
      · intro hle2
        rw [if_neg (by omega)]
      · split <;> rfl

theorem applyRollbacks_single (m : List (String × Int)) (rb : Rollback) :
    applyRollbacks m [rb] = mapInsert m rb.key (getV m rb.key - rb.amount) :=
  rfl

/-! ## C3: one check = pre-check, increment + recorded release, re-check -/

/-- C3: a single check on a key with a registered threshold.  If the
current value plus the increment exceeds the threshold, it rejects with its
associated error code, applies no increment and records no release action.
Otherwise it applies the increment, records a release action subtracting
exactly that increment, and re-reads the counter (the re-read sees any
amount `delta` concurrently added in between): if the re-read value exceeds
the threshold it still rejects with the same code while the increment stays
in place, and in every pass case the increment is undone exactly by running
the recorded release action. -/
theorem check_two_stage_behaviour :
    ∀ (cb : CircuitBreaker) (b a t : String) (inc delta max : Int)
      (ec : ErrorCode),
      mapGet cb.limitations (Concat [b, a, t]) = some max →
      (max < getV cb.counters (Concat [b, a, t]) + inc →
        (loadCounterAndCompare cb b a t inc ec delta).2.1 = none
        ∧ (loadCounterAndCompare cb b a t inc ec delta).2.2 = ec
        ∧ getV (loadCounterAndCompare cb b a t inc ec delta).1.counters
            (Concat [b, a, t]) = getV cb.counters (Concat [b, a, t]))
      ∧ (getV cb.counters (Concat [b, a, t]) + inc ≤ max →
        (loadCounterAndCompare cb b a t inc ec delta).2.1
            = some ⟨Concat [b, a, t], inc⟩
        ∧ getV (loadCounterAndCompare cb b a t inc ec delta).1.counters
            (Concat [b, a, t])
            = getV cb.counters (Concat [b, a, t]) + inc + delta
        ∧ (max < getV cb.counters (Concat [b, a, t]) + inc + delta →
            (loadCounterAndCompare cb b a t inc ec delta).2.2 = ec)
        ∧ (getV cb.counters (Concat [b, a, t]) + inc + delta ≤ max →
            (loadCounterAndCompare cb b a t inc ec delta).2.2
              = ErrorCode.ErrNone)
        ∧ getV (applyRollbacks
              (loadCounterAndCompare cb b a t inc ec delta).1.counters
              [⟨Concat [b, a, t], inc⟩]) (Concat [b, a, t])
            = getV cb.counters (Concat [b, a, t]) + delta) := by
  intro cb b a t inc delta max ec h
  have hs := loadCounterAndCompare_spec cb b a t inc delta max ec h
  constructor
  · intro hlt
    exact ⟨(hs.1 hlt).1, (hs.1 hlt).2.1, (hs.1 hlt).2.2.1 (Concat [b, a, t])⟩
  · intro hle
    have hv := (hs.2 hle).2.1 (Concat [b, a, t])
    rw [if_pos rfl] at hv
    refine ⟨(hs.2 hle).1, hv, (hs.2 hle).2.2.1, (hs.2 hle).2.2.2.1, ?_⟩
    rw [applyRollbacks_single, getV_mapInsert, if_pos rfl]
    rw [hv]
    ring

/-- A state for exercising the two-stage check: threshold 3 for the bucket
count key, no live counters. -/
def cbTwoStageW : CircuitBreaker :=
  { Enabled := true, counters := [],
    limitations := [(Concat ["b", "Read", LimitTypeCount], 3)] }

theorem check_two_stage_behaviour_witness :
    mapGet cbTwoStageW.limitations (Concat ["b", "Read", LimitTypeCount])
      = some 3
    ∧ (loadCounterAndCompare cbTwoStageW "b" "Read" LimitTypeCount 1
        ErrorCode.ErrTooManyRequest 5).2.1
      = some ⟨Concat ["b", "Read", LimitTypeCount], 1⟩
    ∧ (loadCounterAndCompare cbTwoStageW "b" "Read" LimitTypeCount 1
        ErrorCode.ErrTooManyRequest 5).2.2 = ErrorCode.ErrTooManyRequest :=
  ⟨by decide,
   ((check_two_stage_behaviour cbTwoStageW "b" "Read" LimitTypeCount 1 5 3
      ErrorCode.ErrTooManyRequest (by decide)).2 (by decide)).1,
   ((check_two_stage_behaviour cbTwoStageW "b" "Read" LimitTypeCount 1 5 3
      ErrorCode.ErrTooManyRequest (by decide)).2 (by decide)).2.2.1
     (by decide)⟩

/-! ## C10: a negative declared content length defeats every bytes limit -/

/-- C10: a request with negative declared content length (the unknown-length
value) passes a bytes check against any registered non-negative threshold
whose counter is at most the threshold: both stages return no error, the
counter is decreased by that negative increment while the request is in
flight (it can drop below zero), and the recorded release action restores
the previous value. -/
theorem negative_length_passes_bytes_check :
    ∀ (cb : CircuitBreaker) (b a : String) (len max : Int),
      len < 0 → 0 ≤ max →
      mapGet cb.limitations (Concat [b, a, LimitTypeBytes]) = some max →
      getV cb.counters (Concat [b, a, LimitTypeBytes]) ≤ max →
      (loadCounterAndCompare cb b a LimitTypeBytes len
          ErrorCode.ErrRequestBytesExceed 0).2.2 = ErrorCode.ErrNone
      ∧ (loadCounterAndCompare cb b a LimitTypeBytes len
          ErrorCode.ErrRequestBytesExceed 0).2.1
        = some ⟨Concat [b, a, LimitTypeBytes], len⟩
      ∧ getV (loadCounterAndCompare cb b a LimitTypeBytes len
          ErrorCode.ErrRequestBytesExceed 0).1.counters
          (Concat [b, a, LimitTypeBytes])
        = getV cb.counters (Concat [b, a, LimitTypeBytes]) + len
      ∧ getV (applyRollbacks
            (loadCounterAndCompare cb b a LimitTypeBytes len
              ErrorCode.ErrRequestBytesExceed 0).1.counters
            [⟨Concat [b, a, LimitTypeBytes], len⟩])
          (Concat [b, a, LimitTypeBytes])
        = getV cb.counters (Concat [b, a, LimitTypeBytes]) := by
  intro cb b a len max hneg hmax h hcur
  have hs := loadCounterAndCompare_spec cb b a LimitTypeBytes len 0 max
    ErrorCode.ErrRequestBytesExceed h
  have hle : getV cb.counters (Concat [b, a, LimitTypeBytes]) + len ≤ max := by
    omega
  have hv := (hs.2 hle).2.1 (Concat [b, a, LimitTypeBytes])
  rw [if_pos rfl] at hv
  refine ⟨(hs.2 hle).2.2.2.1 (by omega), (hs.2 hle).1, by rw [hv]; ring, ?_⟩
  rw [applyRollbacks_single, getV_mapInsert, if_pos rfl, hv]
  ring

/-- A state for the unknown-length scenario: bytes threshold 100, counter
currently 0. -/
def cbUnknownLenW : CircuitBreaker :=
  { Enabled := true, counters := [],
    limitations := [(Concat ["b", "Read", LimitTypeBytes], 100)] }

theorem negative_length_passes_bytes_check_witness :
    ((-1 : Int) < 0 ∧ (0 : Int) ≤ 100
      ∧ mapGet cbUnknownLenW.limitations
          (Concat ["b", "Read", LimitTypeBytes]) = some 100
      ∧ getV cbUnknownLenW.counters (Concat ["b", "Read", LimitTypeBytes])
          ≤ 100)
    ∧ ((loadCounterAndCompare cbUnknownLenW "b" "Read" LimitTypeBytes (-1)
          ErrorCode.ErrRequestBytesExceed 0).2.2 = ErrorCode.ErrNone
      ∧ (loadCounterAndCompare cbUnknownLenW "b" "Read" LimitTypeBytes (-1)
          ErrorCode.ErrRequestBytesExceed 0).2.1
        = some ⟨Concat ["b", "Read", LimitTypeBytes], -1⟩
      ∧ getV (loadCounterAndCompare cbUnknownLenW "b" "Read" LimitTypeBytes
            (-1) ErrorCode.ErrRequestBytesExceed 0).1.counters
          (Concat ["b", "Read", LimitTypeBytes])
        = getV cbUnknownLenW.counters (Concat ["b", "Read", LimitTypeBytes])
            + (-1)
      ∧ getV (applyRollbacks
            (loadCounterAndCompare cbUnknownLenW "b" "Read" LimitTypeBytes
              (-1) ErrorCode.ErrRequestBytesExceed 0).1.counters
            [⟨Concat ["b", "Read", LimitTypeBytes], -1⟩])
          (Concat ["b", "Read", LimitTypeBytes])
        = getV cbUnknownLenW.counters (Concat ["b", "Read", LimitTypeBytes]))
    ∧ getV (loadCounterAndCompare cbUnknownLenW "b" "Read" LimitTypeBytes
          (-1) ErrorCode.ErrRequestBytesExceed 0).1.counters
        (Concat ["b", "Read", LimitTypeBytes]) = -1 :=
  ⟨⟨by decide, by decide, by decide, by decide⟩,
   negative_length_passes_bytes_check cbUnknownLenW "b" "Read" (-1) 100
     (by decide) (by decide) (by decide) (by decide),
   by decide⟩

/-- C5: the gate evaluates exactly the four checks described by
`gateChecks` — bucket count (increment 1), bucket bytes (increment = the
declared content length), global count (increment 1), global bytes
(increment = the declared content length) — in that order, with the
"too many concurrent requests" code on count checks and the
"request byte volume exceeds limit" code on bytes checks, short-circuiting
on the first rejection. -/
theorem limit_is_the_four_ordered_checks :
    ∀ (cb : CircuitBreaker) (bucket action : String) (contentLength : Int),
      cb.limit bucket action contentLength
        = runChecks cb (gateChecks bucket action contentLength) := by
  intro cb b a l
  exact limit_eq_runChecks cb b a l

/-! ## C4: every collected release restores the touched counters -/

theorem getV_applyRollbacks (rbs : List Rollback)
    (m : List (String × Int)) (k : String) :
    getV (applyRollbacks m rbs) k = getV m k - sumAt rbs k := by
  induction rbs generalizing m with
  | nil => simp [applyRollbacks, sumAt]
  | cons rb rest ih =>
    show getV (applyRollbacks
      (mapInsert m rb.key (getV m rb.key - rb.amount)) rest) k = _
    rw [ih, getV_mapInsert]
    simp only [sumAt]
    by_cases hk : rb.key = k
    · rw [if_pos hk.symm, if_pos hk, hk]
      ring
    · rw [if_neg (fun hh => hk hh.symm), if_neg hk]
      ring

theorem sumAt_append (xs ys : List Rollback) (k : String) :
    sumAt (xs ++ ys) k = sumAt xs k + sumAt ys k := by
  induction xs with
  | nil => simp [sumAt]
  | cons x rest ih =>
    show (if x.key = k then x.amount else 0) + sumAt (rest ++ ys) k = _
    rw [ih]
    simp only [sumAt]
    ring

theorem checkValD (cb : CircuitBreaker) (b a t : String) (inc : Int)
    (ec : ErrorCode) (delta : Int) (k : String) :
    getV (loadCounterAndCompare cb b a t inc ec delta).1.counters k
      = getV cb.counters k
        + sumAt (loadCounterAndCompare cb b a t inc ec delta).2.1.toList k
        + (if (loadCounterAndCompare cb b a t inc ec delta).2.1.isSome = true
              ∧ k = Concat [b, a, t]
           then delta else 0) := by
  cases hlim : mapGet cb.limitations (Concat [b, a, t]) with
  | none =>
    simp [loadCounterAndCompare, hlim, sumAt]
  | some max =>
    have hs := loadCounterAndCompare_spec cb b a t inc delta max ec hlim
    by_cases hpre : max < getV cb.counters (Concat [b, a, t]) + inc
    · have h1 := hs.1 hpre
      rw [h1.1]
      simp only [Option.toList_none, sumAt, Option.isSome_none,
        false_and, if_neg, Bool.false_eq_true, ite_false]
      rw [h1.2.2.1 k]
      ring
    · have h2 := hs.2 (by omega)
      rw [h2.1]
      simp only [Option.toList_some, sumAt, Option.isSome_some, true_and]
      rw [h2.2.1 k]
      by_cases hk : k = Concat [b, a, t]
      · rw [if_pos hk, if_pos hk.symm, if_pos hk, hk]
        ring
      · rw [if_neg hk, if_neg (fun hh => hk hh.symm), if_neg hk]
        ring

theorem checkVal0 (cb : CircuitBreaker) (b a t : String) (inc : Int)
    (ec : ErrorCode) (k : String) :
    getV (loadCounterAndCompare cb b a t inc ec 0).1.counters k
      = getV cb.counters k
        + sumAt (loadCounterAndCompare cb b a t inc ec 0).2.1.toList k := by
  have h := checkValD cb b a t inc ec 0 k
  simp only [ite_self] at h
  omega

theorem runChecksVal (cs : List CheckSpec) (cb : CircuitBreaker)
    (k : String) :
    getV (runChecks cb cs).1.counters k
      = getV cb.counters k + sumAt (runChecks cb cs).2.1 k := by
  induction cs generalizing cb with
  | nil => simp [runChecks, sumAt]
  | cons c rest ih =>
    simp only [runChecks]
    by_cases h : (loadCounterAndCompare cb c.bucket c.action c.limitType
        c.inc c.errCode 0).2.2 = ErrorCode.ErrNone
    · rw [if_pos h]
      simp only
      rw [ih, sumAt_append, checkVal0]
      ring
    · rw [if_neg h]
      exact checkVal0 cb c.bucket c.action c.limitType c.inc c.errCode k

theorem limitVal (cb : CircuitBreaker) (b a : String) (l : Int)
    (k : String) :
    getV (cb.limit b a l).1.counters k
      = getV cb.counters k + sumAt (cb.limit b a l).2.1 k := by
  rw [limit_eq_runChecks]
  exact runChecksVal (gateChecks b a l) cb k

/-- C4: running the release actions collected for a request restores every
touched counter to its pre-request value.  First conjunct: for any single
check (admitted, rejected before the increment, or rejected at the
post-increment re-check, and under any concurrent interference `delta`),
running its collected release actions leaves the counter at its prior
value plus exactly the interference that other requests added (their own
releases account for that part).  Second conjunct: a fully processed
request leaves every counter value as it was.  Third conjunct: any fully
sequential sequence of requests leaves every counter at its initial
value. -/
theorem releases_restore_every_counter :
    (∀ (cb : CircuitBreaker) (b a t : String) (inc delta : Int)
       (ec : ErrorCode) (k : String),
       getV (applyRollbacks
           (loadCounterAndCompare cb b a t inc ec delta).1.counters
           (loadCounterAndCompare cb b a t inc ec delta).2.1.toList) k
         = getV cb.counters k
           + (if (loadCounterAndCompare cb b a t inc ec delta).2.1.isSome
                  = true ∧ k = Concat [b, a, t]
              then delta else 0))
    ∧ (∀ (cb : CircuitBreaker) (b a : String) (l : Int) (k : String),
       getV (CircuitBreaker.Limit cb b a l).1.counters k
         = getV cb.counters k)
    ∧ (∀ (reqs : List (String × String × Int)) (cb : CircuitBreaker)
        (k : String),
       getV (LimitSeq cb reqs).counters k = getV cb.counters k) := by
  have hreq : ∀ (cb : CircuitBreaker) (b a : String) (l : Int) (k : String),
      getV (CircuitBreaker.Limit cb b a l).1.counters k
        = getV cb.counters k := by
    intro cb b a l k
    simp only [CircuitBreaker.Limit]
    by_cases he : cb.Enabled
    · simp only [he, Bool.not_true, Bool.false_eq_true, if_false]
      split
      · simp only
        rw [getV_applyRollbacks, limitVal]
        ring
      · simp only
        rw [getV_applyRollbacks, limitVal]
        ring
    · simp only [Bool.not_eq_true] at he
      simp [he]
  refine ⟨?_, hreq, ?_⟩
  · intro cb b a t inc delta ec k
    rw [getV_applyRollbacks, checkValD]
    ring
  · intro reqs
    induction reqs with
    | nil => intro cb k; rfl
    | cons r rest ih =>
      intro cb k
      show getV (LimitSeq (CircuitBreaker.Limit cb r.1 r.2.1 r.2.2).1
        rest).counters k = _
      rw [ih, hreq]

/-! ## C8: bucket entries are included iff the bucket is enabled -/

theorem mapGet_ne_none_mapInsert (m : List (String × Int)) (k : String)
    (v : Int) (k' : String) :
    mapGet (mapInsert m k v) k' ≠ none ↔ k' = k ∨ mapGet m k' ≠ none := by
  rw [mapGet_mapInsert]
  split
  · simp [*]
  · simp [*]

theorem mapGet_fold_actions (acts : List (String × Int))
    (g : String × Int → String) (m : List (String × Int)) (k : String) :
    mapGet (acts.foldl (fun m2 p => mapInsert m2 (g p) p.2) m) k ≠ none
      ↔ (∃ p, p ∈ acts ∧ g p = k) ∨ mapGet m k ≠ none := by
  induction acts generalizing m with
  | nil => simp
  | cons p rest ih =>
    show mapGet (rest.foldl _ (mapInsert m (g p) p.2)) k ≠ none ↔ _
    rw [ih, mapGet_ne_none_mapInsert]
    simp only [List.mem_cons]
    constructor
    · rintro (⟨q, hq, hgq⟩ | hk | hm)
      · exact Or.inl ⟨q, Or.inr hq, hgq⟩
      · exact Or.inl ⟨p, Or.inl rfl, hk.symm⟩
      · exact Or.inr hm
    · rintro (⟨q, hq | hq, hgq⟩ | hm)
      · subst hq
        exact Or.inr (Or.inl hgq.symm)
      · exact Or.inl ⟨q, hq, hgq⟩
      · exact Or.inr (Or.inr hm)

theorem mapGet_fold_buckets (bs : List (String × S3CircuitBreakerOptions))
    (m : List (String × Int)) (k : String) :
    mapGet (bs.foldl
        (fun m2 bp =>
          if bp.2.enabled = true then
            bp.2.actions.foldl
              (fun m3 p => mapInsert m3 (Concat [bp.1, p.1]) p.2) m2
          else m2) m) k ≠ none
      ↔ (∃ bp, bp ∈ bs ∧ bp.2.enabled = true
            ∧ ∃ p, p ∈ bp.2.actions ∧ Concat [bp.1, p.1] = k)
        ∨ mapGet m k ≠ none := by
  induction bs generalizing m with
  | nil => simp
  | cons bp rest ih =>
    show mapGet (rest.foldl _ _) k ≠ none ↔ _
    rw [ih]
    simp only [List.mem_cons]
    by_cases hb : bp.2.enabled = true
    · rw [if_pos hb]
      rw [mapGet_fold_actions bp.2.actions (fun p => Concat [bp.1, p.1]) m k]
      constructor
      · rintro (⟨q, hq, hen, p, hp, hcq⟩ | ⟨p, hp, hcp⟩ | hm)
        · exact Or.inl ⟨q, Or.inr hq, hen, p, hp, hcq⟩
        · exact Or.inl ⟨bp, Or.inl rfl, hb, p, hp, hcp⟩
        · exact Or.inr hm
      · rintro (⟨q, hq | hq, hen, p, hp, hcq⟩ | hm)
        · subst hq
          exact Or.inr (Or.inl ⟨p, hp, hcq⟩)
        · exact Or.inl ⟨q, hq, hen, p, hp, hcq⟩
        · exact Or.inr (Or.inr hm)
    · rw [if_neg hb]
      constructor
      · rintro (⟨q, hq, hen, p, hp, hcq⟩ | hm)
        · exact Or.inl ⟨q, Or.inr hq, hen, p, hp, hcq⟩
        · exact Or.inr hm
      · rintro (⟨q, hq | hq, hen, p, hp, hcq⟩ | hm)
        · subst hq
          exact absurd hen hb
        · exact Or.inl ⟨q, hq, hen, p, hp, hcq⟩
        · exact Or.inr hm

theorem limitations_char (cb : CircuitBreaker) (cfg : S3CircuitBreakerConfig)
    (k : String) :
    mapGet (loadCircuitBreakerConfig cb cfg).limitations k ≠ none
      ↔ (∃ bp, bp ∈ cfg.buckets ∧ bp.2.enabled = true
            ∧ ∃ p, p ∈ bp.2.actions ∧ Concat [bp.1, p.1] = k)
        ∨ (∃ g, cfg.global = some g ∧ g.enabled = true
            ∧ 0 < g.actions.length ∧ ∃ p, p ∈ g.actions ∧ p.1 = k) := by
  simp only [loadCircuitBreakerConfig]
  rw [mapGet_fold_buckets]
  cases hg : cfg.global with
  | none =>
    dsimp only
    simp [mapGet]
  | some g =>
    dsimp only
    by_cases hcond : g.enabled = true ∧ 0 < g.actions.length
    · rw [if_pos hcond]
      simp only
      rw [mapGet_fold_actions g.actions (fun p => p.1) [] k]
      simp only [mapGet, ne_eq, not_true_eq_false, or_false,
        Option.some.injEq]
      constructor
      · rintro (hb | ⟨p, hp, hpk⟩)
        · exact Or.inl hb
        · exact Or.inr ⟨g, rfl, hcond.1, hcond.2, p, hp, hpk⟩
      · rintro (hb | ⟨g', hg', hen, hlen, p, hp, hpk⟩)
        · exact Or.inl hb
        · cases hg'
          exact Or.inr ⟨p, hp, hpk⟩
    · rw [if_neg hcond]
      simp only [mapGet, ne_eq, not_true_eq_false, or_false,
        Option.some.injEq]
      constructor
      · exact fun hb => Or.inl hb
      · rintro (hb | ⟨g', hg', hen, hlen, p, hp, hpk⟩)
        · exact hb
        · cases hg'
          exact absurd ⟨hen, hlen⟩ hcond

/-- C8: a bucket's action→threshold entries are included in the new limit
table under the bucket-scoped key exactly when that bucket's own enabled
flag is true, independently of the global section.  The only-if direction
is stated for keys that actually identify this bucket's entry: no other
enabled bucket and no global action entry happens to produce the same
composite key string. -/
theorem bucket_limits_included_iff_enabled :
    ∀ (cfg : S3CircuitBreakerConfig) (cb : CircuitBreaker) (b : String)
      (opts : S3CircuitBreakerOptions) (a : String) (v : Int),
      (b, opts) ∈ cfg.buckets → (a, v) ∈ opts.actions →
      (opts.enabled = true →
        mapGet (loadCircuitBreakerConfig cb cfg).limitations (Concat [b, a])
          ≠ none)
      ∧ (opts.enabled = false →
        (∀ bp, bp ∈ cfg.buckets → bp.2.enabled = true →
          ∀ p, p ∈ bp.2.actions → Concat [bp.1, p.1] ≠ Concat [b, a]) →
        (∀ g, cfg.global = some g →
          ∀ p, p ∈ g.actions → p.1 ≠ Concat [b, a]) →
        mapGet (loadCircuitBreakerConfig cb cfg).limitations (Concat [b, a])
          = none) := by
  intro cfg cb b opts a v hmem hact
  constructor
  · intro hen
    rw [limitations_char]
    exact Or.inl ⟨(b, opts), hmem, hen, (a, v), hact, rfl⟩
  · intro _ hfresh1 hfresh2
    by_contra hne
    rcases (limitations_char cb cfg (Concat [b, a])).mp hne with
      ⟨bp, hbp, hben, p, hp, hcp⟩ | ⟨g, hg, _, _, p, hp, hpk⟩
    · exact hfresh1 bp hbp hben p hp hcp
    · exact hfresh2 g hg p hp hpk

/-- A configuration with one enabled and one disabled bucket, plus an
enabled global section. -/
def cfgBucketsW : S3CircuitBreakerConfig :=
  { global := some { enabled := true, actions := [("gAct", 1)] },
    buckets := [("b1", { enabled := true, actions := [("a", 5)] }),
                ("b2", { enabled := false, actions := [("a", 7)] })] }

theorem bucket_limits_included_iff_enabled_witness :
    (("b1", ({ enabled := true, actions := [("a", 5)] }
        : S3CircuitBreakerOptions)) ∈ cfgBucketsW.buckets
      ∧ ("a", (5 : Int))
          ∈ ({ enabled := true, actions := [("a", 5)] }
              : S3CircuitBreakerOptions).actions
      ∧ ("b2", ({ enabled := false, actions := [("a", 7)] }
          : S3CircuitBreakerOptions)) ∈ cfgBucketsW.buckets
      ∧ ("a", (7 : Int))
          ∈ ({ enabled := false, actions := [("a", 7)] }
              : S3CircuitBreakerOptions).actions)
    ∧ mapGet (loadCircuitBreakerConfig NewCircuitBreaker
        cfgBucketsW).limitations (Concat ["b1", "a"]) ≠ none
    ∧ mapGet (loadCircuitBreakerConfig NewCircuitBreaker
        cfgBucketsW).limitations (Concat ["b2", "a"]) = none :=
  ⟨⟨by decide, by decide, by decide, by decide⟩,
   (bucket_limits_included_iff_enabled cfgBucketsW NewCircuitBreaker "b1"
      { enabled := true, actions := [("a", 5)] } "a" 5
      (by decide) (by decide)).1 (by decide),
   (bucket_limits_included_iff_enabled cfgBucketsW NewCircuitBreaker "b2"
      { enabled := false, actions := [("a", 7)] } "a" 7
      (by decide) (by decide)).2 (by decide)
     (by decide) (by decide)⟩

/-- A configuration whose global section is enabled but has no action
entries. -/
def cfgEnabledNoActionsW : S3CircuitBreakerConfig :=
  { global := some { enabled := true, actions := [] },
    buckets := [("b", { enabled := true, actions := [("a", 1)] })] }

theorem enabled_iff_global_nonempty_witness :
    (loadCircuitBreakerConfig NewCircuitBreaker cfgGlobalReadCount).Enabled
      = true
    ∧ (loadCircuitBreakerConfig NewCircuitBreaker
        cfgEnabledNoActionsW).Enabled = false :=
  ⟨(enabled_iff_global_nonempty NewCircuitBreaker cfgGlobalReadCount).mpr
      ⟨{ enabled := true, actions := [("Read:Count", 5)] }, rfl, rfl,
        by decide⟩,
   by decide⟩
